import Mathlib

/-!
Verification of the chain engine of `src/app.py` (class `SimpleBlockchain`).

The embedding is shallow and executable:
* SHA-256 is implemented over `Nat` words (32-bit arithmetic written with
  explicit `% 2^32`), byte lists, and hex strings, exactly as
  `hashlib.sha256(...).hexdigest()` computes it.
* The canonical serialization mirrors Python's
  `json.dumps(..., sort_keys=True)` with its default separators and
  `ensure_ascii` escaping.  Clock readings (`time.time()`) are modelled as
  natural numbers standing for floats with integral value below 10^16,
  whose Python `repr` — and hence their JSON text — is the decimal digits
  followed by ".0"; `jsonFloat` renders exactly that.
* The wall clock is a stream `clk : Nat → Nat` giving the value returned by
  the k-th `time.time()` call of the operation at hand, and the unbounded
  mining loop is given explicit fuel; `none` models a run that has not yet
  found a proof-of-work hit.
-/

set_option maxRecDepth 40000

/-- Truncate to a 32-bit word. -/
def w32 (x : Nat) : Nat := x % 4294967296

/-- Right rotation of a 32-bit word by `n` bits. -/
def rotr32 (n x : Nat) : Nat := w32 ((x >>> n) ||| (x <<< (32 - n)))

/-- SHA-256 small sigma-0. -/
def smallSigma0 (x : Nat) : Nat := rotr32 7 x ^^^ rotr32 18 x ^^^ (x >>> 3)

/-- SHA-256 small sigma-1. -/
def smallSigma1 (x : Nat) : Nat := rotr32 17 x ^^^ rotr32 19 x ^^^ (x >>> 10)

/-- SHA-256 big sigma-0. -/
def bigSigma0 (x : Nat) : Nat := rotr32 2 x ^^^ rotr32 13 x ^^^ rotr32 22 x

/-- SHA-256 big sigma-1. -/
def bigSigma1 (x : Nat) : Nat := rotr32 6 x ^^^ rotr32 11 x ^^^ rotr32 25 x

/-- SHA-256 choice function. -/
def chFn (x y z : Nat) : Nat := (x &&& y) ^^^ ((x ^^^ 4294967295) &&& z)

/-- SHA-256 majority function. -/
def majFn (x y z : Nat) : Nat := (x &&& y) ^^^ (x &&& z) ^^^ (y &&& z)

/-- The 64 SHA-256 round constants. -/
def shaK : List Nat :=
  [1116352408, 1899447441, 3049323471, 3921009573, 961987163,
   1508970993, 2453635748, 2870763221, 3624381080, 310598401,
   607225278, 1426881987, 1925078388, 2162078206, 2614888103,
   3248222580, 3835390401, 4022224774, 264347078, 604807628,
   770255983, 1249150122, 1555081692, 1996064986, 2554220882,
   2821834349, 2952996808, 3210313671, 3336571891, 3584528711,
   113926993, 338241895, 666307205, 773529912, 1294757372,
   1396182291, 1695183700, 1986661051, 2177026350, 2456956037,
   2730485921, 2820302411, 3259730800, 3345764771, 3516065817,
   3600352804, 4094571909, 275423344, 430227734, 506948616,
   659060556, 883997877, 958139571, 1322822218, 1537002063,
   1747873779, 1955562222, 2024104815, 2227730452, 2361852424,
   2428436474, 2756734187, 3204031479, 3329325298]

/-- The eight 32-bit working words of a SHA-256 state. -/
structure H8 where
  a : Nat
  b : Nat
  c : Nat
  d : Nat
  e : Nat
  f : Nat
  g : Nat
  h : Nat

/-- The SHA-256 initial state. -/
def initH : H8 :=
  ⟨1779033703, 3144134277, 1013904242, 2773480762, 1359893119, 2600822924, 528734635, 1541459225⟩

/-- Message padding: append `0x80`, zero bytes, then the 64-bit big-endian bit length. -/
def sha256pad (msg : List Nat) : List Nat :=
  let l := msg.length
  let padLen := (119 - l % 64) % 64
  let bitLen := 8 * l
  msg ++ [128] ++ List.replicate padLen 0 ++
    [bitLen >>> 56 % 256, bitLen >>> 48 % 256, bitLen >>> 40 % 256, bitLen >>> 32 % 256,
     bitLen >>> 24 % 256, bitLen >>> 16 % 256, bitLen >>> 8 % 256, bitLen % 256]

/-- Group bytes into big-endian 32-bit words. -/
def bytesToWords : List Nat → List Nat
  | a :: b :: c :: d :: rest => (a * 16777216 + b * 65536 + c * 256 + d) :: bytesToWords rest
  | _ => []

/-- Worker for `chunk16`; the fuel is an upper bound on the number of chunks. -/
def chunk16Go : Nat → List Nat → List (List Nat)
  | 0, _ => []
  | _, [] => []
  | fuel + 1, ws => ws.take 16 :: chunk16Go fuel (ws.drop 16)

/-- Split a word list into 16-word chunks. -/
def chunk16 (ws : List Nat) : List (List Nat) := chunk16Go ws.length ws

/-- Message-schedule extension; `acc` holds the words produced so far, most recent first. -/
def schedExtend : Nat → List Nat → List Nat
  | 0, acc => acc.reverse
  | fuel + 1, acc =>
      let nw := w32 (smallSigma1 (acc.getD 1 0) + acc.getD 6 0 +
                     smallSigma0 (acc.getD 14 0) + acc.getD 15 0)
      schedExtend fuel (nw :: acc)

/-- One SHA-256 compression round; `wk` is the (schedule word, round constant) pair. -/
def roundStep (st : H8) (wk : Nat × Nat) : H8 :=
  let t1 := w32 (st.h + bigSigma1 st.e + chFn st.e st.f st.g + wk.2 + wk.1)
  let t2 := w32 (bigSigma0 st.a + majFn st.a st.b st.c)
  ⟨w32 (t1 + t2), st.a, st.b, st.c, w32 (st.d + t1), st.e, st.f, st.g⟩

/-- Compress one 16-word chunk into the running state. -/
def compressChunk (st : H8) (ws : List Nat) : H8 :=
  let sched := schedExtend 48 ws.reverse
  let fin := (sched.zip shaK).foldl roundStep st
  ⟨w32 (st.a + fin.a), w32 (st.b + fin.b), w32 (st.c + fin.c), w32 (st.d + fin.d),
   w32 (st.e + fin.e), w32 (st.f + fin.f), w32 (st.g + fin.g), w32 (st.h + fin.h)⟩

/-- The four big-endian bytes of a 32-bit word. -/
def wordBytes (x : Nat) : List Nat := [x >>> 24 % 256, x >>> 16 % 256, x >>> 8 % 256, x % 256]

/-- SHA-256 digest of a byte list, as 32 bytes. -/
def sha256 (msg : List Nat) : List Nat :=
  let st := (chunk16 (bytesToWords (sha256pad msg))).foldl compressChunk initH
  wordBytes st.a ++ wordBytes st.b ++ wordBytes st.c ++ wordBytes st.d ++
  wordBytes st.e ++ wordBytes st.f ++ wordBytes st.g ++ wordBytes st.h

/-- Lower-case hex digit for a value below 16. -/
def hexDigit (n : Nat) : Char := if n < 10 then Char.ofNat (48 + n) else Char.ofNat (87 + n)

/-- Lower-case hex rendering of a byte list. -/
def hexOfBytes (bs : List Nat) : String :=
  String.mk (bs.flatMap fun b => [hexDigit (b / 16), hexDigit (b % 16)])

/-- UTF-8 encoding of a string, as byte values (`str.encode()` in Python). -/
def strBytes (s : String) : List Nat :=
  s.data.flatMap fun c =>
    let n := c.toNat
    if n < 128 then [n]
    else if n < 2048 then [192 + n / 64, 128 + n % 64]
    else if n < 65536 then [224 + n / 4096, 128 + n / 64 % 64, 128 + n % 64]
    else [240 + n / 262144, 128 + n / 4096 % 64, 128 + n / 64 % 64, 128 + n % 64]

/-- SHA-256 hex digest of a string, as `hashlib.sha256(s.encode()).hexdigest()` computes it. -/
def sha256hex (s : String) : String := hexOfBytes (sha256 (strBytes s))

/-- Four hex digits of a code point, as in a JSON `\uXXXX` escape. -/
def hex4 (n : Nat) : List Char :=
  [hexDigit (n / 4096 % 16), hexDigit (n / 256 % 16), hexDigit (n / 16 % 16), hexDigit (n % 16)]

/-- JSON escaping of one character, following `json.dumps` with its default
`ensure_ascii=True`: quote, backslash and the five named control characters get
two-character escapes, every other character outside the printable ASCII range
gets `\uXXXX` escapes (a surrogate pair above the basic plane), and printable
ASCII is passed through. -/
def jsonEscapeChar (c : Char) : List Char :=
  let n := c.toNat
  if n = 34 then ['\\', '\"']
  else if n = 92 then ['\\', '\\']
  else if n = 8 then ['\\', 'b']
  else if n = 9 then ['\\', 't']
  else if n = 10 then ['\\', 'n']
  else if n = 12 then ['\\', 'f']
  else if n = 13 then ['\\', 'r']
  else if n < 32 ∨ n > 126 then
    if n < 65536 then '\\' :: 'u' :: hex4 n
    else '\\' :: 'u' :: hex4 (55296 + (n - 65536) / 1024) ++
         ('\\' :: 'u' :: hex4 (56320 + (n - 65536) % 1024))
  else [c]

/-- JSON string literal for `s` (quotes plus escaped body). -/
def jsonStr (s : String) : String :=
  "\"" ++ String.mk (s.data.flatMap jsonEscapeChar) ++ "\""

/-- JSON text of a clock value: Python floats with integral value below 10^16
print as their decimal digits followed by ".0". -/
def jsonFloat (t : Nat) : String := toString t ++ ".0"

/-- A provenance event, as the `Transaction` dataclass of `src/app.py`.
Timestamps are modelled as integral-second clock values (see the header). -/
structure Transaction where
  product_id : String
  role : String
  actor_name : String
  location : String
  status : String
  extra_info : String
  timestamp : Nat
deriving DecidableEq

/-- A sealed block, as the `Block` dataclass of `src/app.py`.  The Python
field `transactions` holds the `asdict` images of the sealed transactions;
`asdict` is a field-for-field copy, so the list is kept as transactions. -/
structure Block where
  index : Nat
  timestamp : Nat
  transactions : List Transaction
  previous_hash : String
  nonce : Nat
  hash : String
deriving DecidableEq

/-- The mutable state of a `SimpleBlockchain`: the sealed chain and the
pending (unsealed) transaction buffer. -/
structure BCState where
  chain : List Block
  current_transactions : List Transaction
deriving DecidableEq

/-- `json.dumps(asdict(t), sort_keys=True)` for one transaction: its seven
fields as a JSON object with the keys in sorted order, with the default
`", "` item and `": "` key separators. -/
def serializeTx (t : Transaction) : String :=
  "\x7b\"actor_name\": " ++ jsonStr t.actor_name ++
  ", \"extra_info\": " ++ jsonStr t.extra_info ++
  ", \"location\": " ++ jsonStr t.location ++
  ", \"product_id\": " ++ jsonStr t.product_id ++
  ", \"role\": " ++ jsonStr t.role ++
  ", \"status\": " ++ jsonStr t.status ++
  ", \"timestamp\": " ++ jsonFloat t.timestamp ++ "\x7d"

/-- The canonical serialization hashed by `_create_block` and `mine_block`:
`json.dumps({"index": .., "timestamp": .., "transactions": .., "previous_hash": ..,
"nonce": ..}, sort_keys=True)`.  Sorted key order is
index, nonce, previous_hash, timestamp, transactions. -/
def serializeRecord (index : Nat) (timestamp : Nat) (txs : List Transaction)
    (previous_hash : String) (nonce : Nat) : String :=
  "\x7b\"index\": " ++ toString index ++
  ", \"nonce\": " ++ toString nonce ++
  ", \"previous_hash\": " ++ jsonStr previous_hash ++
  ", \"timestamp\": " ++ jsonFloat timestamp ++
  ", \"transactions\": [" ++ String.intercalate ", " (txs.map serializeTx) ++ "]\x7d"

/-- `self.chain[-1].hash if self.chain else "1"` — the hash of the tip, or the
sentinel on an empty chain (line 67 of `src/app.py`). -/
def previousHashOf (chain : List Block) : String :=
  match chain.getLast? with
  | some b => b.hash
  | none => "1"

/-- `_create_block` (lines 45-60): stamp the clock once, serialize, hash, build
the block from the same values, and clear the pending buffer.  Returns the
block and the updated state; the caller appends. -/
def createBlock (clk : Nat → Nat) (st : BCState) (previous_hash : String) (nonce : Nat) :
    Block × BCState :=
  let index := st.chain.length + 1
  let timestamp := clk 0
  let txs := st.current_transactions
  let block_hash := sha256hex (serializeRecord index timestamp txs previous_hash nonce)
  (⟨index, timestamp, txs, previous_hash, nonce, block_hash⟩,
   { st with current_transactions := [] })

/-- `_create_genesis` (lines 40-43): seal with sentinel previous-hash "1" and
nonce 0, append.  (Persistence writes the document; see `persistDoc`.) -/
def createGenesis (clk : Nat → Nat) (st : BCState) : BCState :=
  let bs := createBlock clk st "1" 0
  { bs.2 with chain := bs.2.chain ++ [bs.1] }

/-- `__init__` when no persisted file exists: empty state, then genesis. -/
def initFresh (clk : Nat → Nat) : BCState := createGenesis clk ⟨[], []⟩

/-- `h.startswith("00")` — the work predicate: the hex text's first two
characters are the ASCII zero character (false on strings shorter than 2). -/
def startsWith00 (s : String) : Bool :=
  match s.data with
  | c0 :: c1 :: _ => c0 == '0' && c1 == '0'
  | _ => false

/-- The search loop of `mine_block` (lines 69-88).  At the attempt for nonce
`n` the loop's single `time.time()` call reads `clk n` (the nonce and the
clock-call count advance together, one per iteration, both starting at 0); on
acceptance the extra `time.time()` of line 79 reads `clk (n + 1)`.  The loop
is unbounded in Python; `fuel` bounds the modelled search and `none` means the
bound was reached before a hit. -/
def mineLoop (clk : Nat → Nat) (st : BCState) (previous_hash : String) :
    Nat → Nat → Option (Block × BCState)
  | _, 0 => none
  | n, fuel + 1 =>
      let h := sha256hex (serializeRecord (st.chain.length + 1) (clk n)
        st.current_transactions previous_hash n)
      if startsWith00 h then
        let b : Block := ⟨st.chain.length + 1, clk (n + 1), st.current_transactions,
          previous_hash, n, h⟩
        some (b, ⟨st.chain ++ [b], []⟩)
      else
        mineLoop clk st previous_hash (n + 1) fuel

/-- `mine_block` (lines 66-88): fix the prior hash (tip or sentinel), then
search nonces from 0. -/
def mineBlock (clk : Nat → Nat) (fuel : Nat) (st : BCState) : Option (Block × BCState) :=
  mineLoop clk st (previousHashOf st.chain) 0 fuel

/-- `add_transaction` (lines 62-64): append to the pending buffer, then mine. -/
def addTransaction (clk : Nat → Nat) (fuel : Nat) (tx : Transaction) (st : BCState) :
    Option (Block × BCState) :=
  mineBlock clk fuel { st with current_transactions := st.current_transactions ++ [tx] }

/-- One row of `get_product_history`: the transaction's fields plus the
enclosing block's index, hash and timestamp (the `_block_*` keys). -/
structure HistoryEntry where
  tx : Transaction
  block_index : Nat
  block_hash : String
  block_timestamp : Nat
deriving DecidableEq

/-- The unsorted pass of `get_product_history` (lines 91-99): scan blocks in
chain order, keep transactions whose `product_id` matches, annotate each with
its block's metadata. -/
def historyEntries (chain : List Block) (product_id : String) : List HistoryEntry :=
  chain.flatMap fun b =>
    (b.transactions.filter fun t => t.product_id == product_id).map fun t =>
      ⟨t, b.index, b.hash, b.timestamp⟩

/-- `get_product_history` (lines 90-101): the scan above followed by
`history.sort(key=lambda e: e["timestamp"])` — a stable ascending sort by the
entry's own transaction timestamp, modelled by insertion sort (the unique
stable sort for this key). -/
def get_product_history (chain : List Block) (product_id : String) : List HistoryEntry :=
  List.insertionSort (fun a b => a.tx.timestamp ≤ b.tx.timestamp)
    (historyEntries chain product_id)

/-- The persisted document: `_persist` writes `{"chain": [...]}`; a `none`
chain models a stored document without a "chain" key, which `_load` accepts
through `data.get("chain", [])`. -/
structure ChainDoc where
  chain : Option (List Block)
deriving DecidableEq

/-- `_persist` (lines 120-123) at the document level: the full chain, each
block as its `asdict` image (the same six fields). -/
def persistDoc (chain : List Block) : ChainDoc := ⟨some chain⟩

/-- `_load` (lines 125-133) at the document level: rebuild every block
field-for-field from the stored record; a missing "chain" key reads as `[]`. -/
def loadChain (doc : ChainDoc) : List Block :=
  (doc.chain.getD []).map fun b =>
    ⟨b.index, b.timestamp, b.transactions, b.previous_hash, b.nonce, b.hash⟩

/-- `__init__` (lines 31-38): start with an empty chain and empty buffer, then
load the stored document when one exists, otherwise create genesis. -/
def initState (clk : Nat → Nat) (stored : Option ChainDoc) : BCState :=
  match stored with
  | some doc => ⟨loadChain doc, []⟩
  | none => initFresh clk

/-- The states reachable through the public interface from a fresh start:
first-run initialization (genesis), then any sequence of successful
`add_transaction` calls, each under an arbitrary clock and fuel. -/
inductive Reachable : BCState → Prop where
  | genesis (clk : Nat → Nat) : Reachable (initFresh clk)
  | submit (clk : Nat → Nat) (fuel : Nat) (tx : Transaction) (st : BCState) (b : Block)
      (st' : BCState) : Reachable st → addTransaction clk fuel tx st = some (b, st') →
      Reachable st'

/-- The invariant maintained by fresh initialization and `add_transaction`:
empty pending buffer, indices 1..n in order, sentinel previous-hash at the
head, hash-linked consecutive blocks, and every non-genesis block carrying a
work-predicate-satisfying hash over exactly one transaction. -/
def ChainInv (st : BCState) : Prop :=
  st.current_transactions = [] ∧
  st.chain.map Block.index = List.range' 1 st.chain.length ∧
  st.chain.head?.map Block.previous_hash = some "1" ∧
  List.Chain' (fun a b => b.previous_hash = a.hash) st.chain ∧
  ∀ b ∈ st.chain.drop 1, startsWith00 b.hash = true ∧ b.transactions.length = 1

/-- Clock for the concrete genesis run used in witnesses: frozen at
1700000000 seconds. -/
def wClkG : Nat → Nat := fun _ => 1700000000

/-- A concrete transaction for the witness runs. -/
def wTx : Transaction := ⟨"P1", "Farmer", "A", "L", "S", "", 1700000000⟩

/-- The digest of the genesis record stamped at 1700000000 (checked below
against the evaluated run; it fails the work predicate). -/
def wHash1 : String := "da0c85e5c5e6c66fa2c6b86ff985029e99af0af84b2e6e973818a9025bb6b6cb"

/-- The digest of the block-2 record stamped at 1700000126 with nonce 0 and
prior hash `wHash1` (it satisfies the work predicate). -/
def wHash2 : String := "00b2a0d7e3b582ab022306d833f4feee4aef24f01b1e307c324ca3c2cc47b9a8"

/-- The genesis block of the concrete fresh run. -/
def wGenesisBlock : Block := ⟨1, 1700000000, [], "1", 0, wHash1⟩

/-- The state right after the concrete fresh initialization. -/
def wSt0 : BCState := initFresh wClkG

/-- Clock for the concrete mining run used in witnesses: frozen at
1700000126 seconds, a value at which nonce 0 already satisfies the work
predicate. -/
def wClkT : Nat → Nat := fun _ => 1700000126

/-- The block sealed by the concrete `add_transaction` run under `wClkT`. -/
def wBlock2 : Block := ⟨2, 1700000126, [wTx], wHash1, 0, wHash2⟩

/-- The state after the concrete `add_transaction` run under `wClkT`. -/
def wSt2 : BCState := ⟨[wGenesisBlock, wBlock2], []⟩

/-- The intermediate state inside the concrete `add_transaction` run: the
transaction has been appended to the pending buffer, mining has not begun. -/
def wSt1 : BCState := ⟨[wGenesisBlock], [wTx]⟩

/-- A clock that advances by one second per `time.time()` call, starting at
1700000126; under it the accepting attempt of block 2 is stamped 1700000126
but the stored block timestamp is read later, as 1700000127. -/
def bClk : Nat → Nat := fun k => 1700000126 + k

/-- The block sealed by the concrete `add_transaction` run under the
advancing clock `bClk`: same accepted digest, later stored timestamp. -/
def bBlock : Block := ⟨2, 1700000127, [wTx], wHash1, 0, wHash2⟩

/-- Query-layer test data: a transaction for item "P9" with timestamp 50,
appearing in block 1 before the equal-timestamp `qTxD` of block 2. -/
def qTxA : Transaction := ⟨"P9", "Farmer", "A1", "L1", "S1", "", 50⟩

/-- Query-layer test data: a transaction for a different item. -/
def qTxB : Transaction := ⟨"other", "Retailer", "A2", "L2", "S2", "", 10⟩

/-- Query-layer test data: a "P9" transaction with the smallest timestamp,
stored in the later block. -/
def qTxC : Transaction := ⟨"P9", "Distributor", "A3", "L3", "S3", "", 20⟩

/-- Query-layer test data: a "P9" transaction tying `qTxA` on timestamp. -/
def qTxD : Transaction := ⟨"P9", "Customer", "A4", "L4", "S4", "", 50⟩

/-- Query-layer test data: first block. -/
def qBlock1 : Block := ⟨1, 100, [qTxA, qTxB], "1", 0, "h1"⟩

/-- Query-layer test data: second block. -/
def qBlock2 : Block := ⟨2, 200, [qTxC, qTxD], "h1", 0, "h2"⟩

/-- Query-layer test data: the two-block chain. -/
def qChain : List Block := [qBlock1, qBlock2]

/-- The history entry produced for `qTxA`. -/
def qEntryA : HistoryEntry := ⟨qTxA, 1, "h1", 100⟩

/-- A persisted document without a "chain" key (`{}` on disk), which `_load`
accepts through `data.get("chain", [])`. -/
def emptyDoc : ChainDoc := ⟨none⟩

/-- Full characterization of a successful run of the mining loop started at
nonce `n`: the returned block is built from the state's fields, the accepted
nonce and the two clock readings around acceptance; its digest satisfies the
work predicate; the block is appended and the buffer cleared; and every
attempt at a nonce between `n` and the accepted one failed the predicate. -/
theorem mineLoop_spec (clk : Nat → Nat) (st : BCState) (prev : String) :
    ∀ (fuel n : Nat) (b : Block) (st' : BCState),
      mineLoop clk st prev n fuel = some (b, st') →
      n ≤ b.nonce ∧
      b = ⟨st.chain.length + 1, clk (b.nonce + 1), st.current_transactions, prev, b.nonce,
           sha256hex (serializeRecord (st.chain.length + 1) (clk b.nonce)
             st.current_transactions prev b.nonce)⟩ ∧
      startsWith00 b.hash = true ∧
      st' = ⟨st.chain ++ [b], []⟩ ∧
      ∀ m, n ≤ m → m < b.nonce →
        startsWith00 (sha256hex (serializeRecord (st.chain.length + 1) (clk m)
          st.current_transactions prev m)) = false := by
  intro fuel
  induction fuel with
  | zero => intro n b st' h; simp [mineLoop] at h
  | succ fuel ih =>
    intro n b st' h
    rw [mineLoop] at h
    by_cases hw : startsWith00 (sha256hex (serializeRecord (st.chain.length + 1) (clk n)
        st.current_transactions prev n)) = true
    · rw [if_pos hw] at h
      simp only [Option.some.injEq, Prod.mk.injEq] at h
      obtain ⟨hb, hst⟩ := h
      subst hb
      refine ⟨le_refl _, rfl, hw, hst.symm, ?_⟩
      intro m hm1 hm2
      simp at hm2
      omega
    · rw [if_neg hw] at h
      obtain ⟨h1, h2, h3, h4, h5⟩ := ih (n + 1) b st' h
      refine ⟨by omega, h2, h3, h4, ?_⟩
      intro m hm1 hm2
      rcases Nat.eq_or_lt_of_le hm1 with hm | hm
      · subst hm
        simpa using hw
      · exact h5 m hm hm2

/-- `mine_block` characterized: corollary of `mineLoop_spec` at starting
nonce 0, with the prior hash fixed to the tip's hash (or the sentinel). -/
theorem mineBlock_spec (clk : Nat → Nat) (fuel : Nat) (st : BCState) (b : Block)
    (st' : BCState) (h : mineBlock clk fuel st = some (b, st')) :
    b = ⟨st.chain.length + 1, clk (b.nonce + 1), st.current_transactions,
         previousHashOf st.chain, b.nonce,
         sha256hex (serializeRecord (st.chain.length + 1) (clk b.nonce)
           st.current_transactions (previousHashOf st.chain) b.nonce)⟩ ∧
    startsWith00 b.hash = true ∧
    st' = ⟨st.chain ++ [b], []⟩ ∧
    ∀ m, m < b.nonce →
      startsWith00 (sha256hex (serializeRecord (st.chain.length + 1) (clk m)
        st.current_transactions (previousHashOf st.chain) m)) = false := by
  obtain ⟨_, h2, h3, h4, h5⟩ := mineLoop_spec clk st (previousHashOf st.chain) fuel 0 b st' h
  exact ⟨h2, h3, h4, fun m hm => h5 m (Nat.zero_le m) hm⟩

/-- A freshly initialized chain satisfies the invariant. -/
theorem chainInv_initFresh (clk : Nat → Nat) : ChainInv (initFresh clk) := by
  refine ⟨rfl, ?_, rfl, List.chain'_singleton _, ?_⟩
  · simp [initFresh, createGenesis, createBlock, List.range']
  · intro b hb
    simp [initFresh, createGenesis, createBlock] at hb

/-- A successful `add_transaction` preserves the invariant. -/
theorem chainInv_addTransaction (clk : Nat → Nat) (fuel : Nat) (tx : Transaction)
    (st : BCState) (b : Block) (st' : BCState) (hinv : ChainInv st)
    (h : addTransaction clk fuel tx st = some (b, st')) : ChainInv st' := by
  obtain ⟨hbuf, hidx, hhead, hlink, hrest⟩ := hinv
  rw [addTransaction, hbuf] at h
  obtain ⟨hb, hw, hst, -⟩ :=
    mineBlock_spec clk fuel ⟨st.chain, [tx]⟩ b st' h
  obtain ⟨c0, rest, hchain⟩ : ∃ c0 rest, st.chain = c0 :: rest := by
    cases hc : st.chain with
    | nil => rw [hc] at hhead; simp at hhead
    | cons c0 rest => exact ⟨c0, rest, rfl⟩
  subst hst
  refine ⟨rfl, ?_, ?_, ?_, ?_⟩
  · have : b.index = st.chain.length + 1 := by rw [hb]
    simp only [List.map_append, List.map_cons, List.map_nil, this, List.length_append,
      List.length_cons, List.length_nil]
    rw [hidx]
    have hr : List.range' 1 st.chain.length ++ [1 + st.chain.length] =
        List.range' 1 (st.chain.length + 1) := by
      have := List.range'_append_1 1 st.chain.length 1
      simpa [Nat.add_comm] using this
    simpa [Nat.add_comm] using hr
  · rw [hchain] at hhead ⊢
    simpa using hhead
  · refine List.Chain'.append hlink (List.chain'_singleton b) ?_
    intro x hx y hy
    simp at hy
    subst hy
    have : b.previous_hash = previousHashOf st.chain := by rw [hb]
    rw [this, previousHashOf, hx]
  · rw [hchain]
    intro x hx
    simp only [List.cons_append, List.drop_succ_cons, List.drop_zero] at hx
    rcases List.mem_append.mp hx with hx | hx
    · refine hrest x ?_
      rw [hchain]
      simpa using hx
    · simp at hx
      subst hx
      refine ⟨hw, ?_⟩
      rw [hb]
      simp

/-- Every state reachable from a fresh start satisfies the invariant. -/
theorem reachable_inv (st : BCState) (h : Reachable st) : ChainInv st := by
  induction h with
  | genesis clk => exact chainInv_initFresh clk
  | submit clk fuel tx st b st' _ hstep ih => exact chainInv_addTransaction clk fuel tx st b st' ih hstep

/-- Filtering by an exact key value commutes with `orderedInsert` under the
key's `≤` order: the inserted element lands in front of the equal-key
elements already present, because the elements it is placed behind all have
strictly smaller keys. -/
theorem filter_orderedInsert {α : Type} (key : α → Nat) (a : α) (t : Nat) :
    ∀ l : List α,
      (List.orderedInsert (fun x y => key x ≤ key y) a l).filter (fun e => key e == t) =
      if key a = t then a :: l.filter (fun e => key e == t)
      else l.filter (fun e => key e == t) := by
  intro l
  induction l with
  | nil =>
      by_cases h : key a = t
      · simp [List.orderedInsert, List.filter_cons, h]
      · simp [List.orderedInsert, List.filter_cons, h]
  | cons b l ih =>
      simp only [List.orderedInsert]
      by_cases hab : key a ≤ key b
      · rw [if_pos hab]
        by_cases h : key a = t
        · simp [List.filter_cons, h]
        · simp [List.filter_cons, h]
      · rw [if_neg hab]
        have hb : key b < key a := Nat.lt_of_not_le hab
        by_cases h : key a = t
        · have hbt : ¬(key b = t) := by omega
          simp [List.filter_cons, hbt, ih, h]
        · simp [List.filter_cons, ih, h]

/-- Filtering by an exact key value commutes with insertion sort under the
key's `≤` order; this is the stability of the sort, class by class. -/
theorem filter_insertionSort {α : Type} (key : α → Nat) (t : Nat) :
    ∀ l : List α,
      (List.insertionSort (fun x y => key x ≤ key y) l).filter (fun e => key e == t) =
      l.filter (fun e => key e == t) := by
  intro l
  induction l with
  | nil => rfl
  | cons a l ih =>
      rw [List.insertionSort, filter_orderedInsert]
      by_cases h : key a = t
      · simp [List.filter_cons, h, ih]
      · simp [List.filter_cons, h, ih]

/-- Claim C5: loading after saving reconstructs the chain exactly — every
block's index, timestamp, transactions, previous hash, nonce and hash come
back with their exact values. -/
theorem claim_C5 (chain : List Block) : loadChain (persistDoc chain) = chain := by
  rw [loadChain, persistDoc]
  induction chain with
  | nil => rfl
  | cons b l ih => simp [ih]

/-- Claim C4, counterexample: a persisted document without a "chain" entry is
accepted by load, and initialization from it leaves the chain empty, so the
sentinel branch of the tip-hash computation is taken by the next submit. -/
theorem claim_C4_counterexample :
    (initState (fun _ => 0) (some emptyDoc)).chain = [] ∧
    previousHashOf (initState (fun _ => 0) (some emptyDoc)).chain = "1" :=
  ⟨rfl, rfl⟩

/-- Claim C4, amended: after fresh initialization (no persisted document) the
chain holds exactly the genesis block, so it is not empty; initialization
from a persisted document copies the document's chain verbatim (with an
empty pending buffer), so a document with a missing or empty chain entry
leaves the chain empty and the sentinel branch reachable. -/
theorem claim_C4 :
    (∀ clk : Nat → Nat, (initState clk none).chain.length = 1) ∧
    (∀ (clk : Nat → Nat) (doc : ChainDoc), initState clk (some doc) = ⟨loadChain doc, []⟩) :=
  ⟨fun _ => rfl, fun _ _ => rfl⟩

/-- Claim C6: `get_product_history` returns exactly the transactions whose
item id matches (each annotated with its block's index, hash and timestamp),
sorted ascending by the entry's own transaction timestamp with ties kept in
scan order (the filter-per-timestamp equations), and returns the empty list
when nothing matches. -/
theorem claim_C6 (chain : List Block) (pid : String) :
    (∀ e ∈ get_product_history chain pid, e.tx.product_id = pid) ∧
    List.Sorted (fun a b => a.tx.timestamp ≤ b.tx.timestamp) (get_product_history chain pid) ∧
    (get_product_history chain pid).Perm (historyEntries chain pid) ∧
    (∀ t, (get_product_history chain pid).filter (fun e => e.tx.timestamp == t) =
      (historyEntries chain pid).filter (fun e => e.tx.timestamp == t)) ∧
    (historyEntries chain pid = [] → get_product_history chain pid = []) := by
  have hperm : (get_product_history chain pid).Perm (historyEntries chain pid) :=
    List.perm_insertionSort _ _
  refine ⟨?_, ?_, hperm, ?_, ?_⟩
  · intro e he
    have he' : e ∈ historyEntries chain pid := hperm.mem_iff.mp he
    rw [historyEntries] at he'
    simp only [List.mem_flatMap, List.mem_map, List.mem_filter] at he'
    obtain ⟨b, -, t, ⟨-, ht⟩, rfl⟩ := he'
    simpa using ht
  · haveI : IsTotal HistoryEntry (fun a b => a.tx.timestamp ≤ b.tx.timestamp) :=
      ⟨fun a b => Nat.le_total _ _⟩
    haveI : IsTrans HistoryEntry (fun a b => a.tx.timestamp ≤ b.tx.timestamp) :=
      ⟨fun a b c => Nat.le_trans⟩
    exact List.sorted_insertionSort _ _
  · intro t
    exact filter_insertionSort (fun e => e.tx.timestamp) t (historyEntries chain pid)
  · intro h
    have hlen : (get_product_history chain pid).length = 0 := by
      rw [hperm.length_eq, h]
      rfl
    exact List.length_eq_zero.mp hlen

/-- Claim C6, witness: on the concrete two-block chain the matching entry for
`qTxA` carries item id "P9"; the result is sorted by transaction timestamp;
the equal-timestamp class 50 keeps scan order; and an unmatched id yields the
empty list. -/
theorem claim_C6_witness :
    qEntryA.tx.product_id = "P9" ∧
    List.Sorted (fun a b => a.tx.timestamp ≤ b.tx.timestamp) (get_product_history qChain "P9") ∧
    (get_product_history qChain "P9").filter (fun e => e.tx.timestamp == 50) =
      (historyEntries qChain "P9").filter (fun e => e.tx.timestamp == 50) ∧
    get_product_history qChain "ZZ" = [] := by
  obtain ⟨h1, h2, -, h4, -⟩ := claim_C6 qChain "P9"
  obtain ⟨-, -, -, -, h5⟩ := claim_C6 qChain "ZZ"
  exact ⟨h1 qEntryA (by decide), h2, h4 50, h5 (by decide)⟩

/-- Claim C3: in every chain reachable by genesis creation followed by
submits, each block's previous hash equals its predecessor's hash, and the
first block carries the sentinel previous-hash "1". -/
theorem claim_C3 (st : BCState) (h : Reachable st) :
    List.Chain' (fun a b => b.previous_hash = a.hash) st.chain ∧
    st.chain.head?.map Block.previous_hash = some "1" := by
  obtain ⟨-, -, hhead, hlink, -⟩ := reachable_inv st h
  exact ⟨hlink, hhead⟩

/-- Claim C3, witness: the concrete genesis-then-submit run reaches the
two-block state `wSt2`, which is hash-linked with sentinel head. -/
theorem claim_C3_witness :
    List.Chain' (fun a b => b.previous_hash = a.hash) wSt2.chain ∧
    wSt2.chain.head?.map Block.previous_hash = some "1" := by
  have h0 : Reachable wSt0 := Reachable.genesis wClkG
  have hstep : addTransaction wClkT 1 wTx wSt0 = some (wBlock2, wSt2) := by decide
  exact claim_C3 wSt2 (Reachable.submit wClkT 1 wTx wSt0 wBlock2 wSt2 h0 hstep)

/-- Claim C2, counterexample: the genesis block produced on first run is
sealed by `_create_block` with nonce 0 and no proof-of-work search, and at
clock value 1700000000 its hash does not start with "00". -/
theorem claim_C2_counterexample :
    (initFresh wClkG).chain.map (fun b => startsWith00 b.hash) = [false] := by
  decide

/-- Claim C2, amended: every block after the first one in a chain reachable
by genesis creation followed by submits has a hash satisfying the work
predicate; the genesis block's hash is a plain digest with no such
guarantee. -/
theorem claim_C2 (st : BCState) (h : Reachable st) :
    ∀ b ∈ st.chain.drop 1, startsWith00 b.hash = true := by
  obtain ⟨-, -, -, -, hrest⟩ := reachable_inv st h
  exact fun b hb => (hrest b hb).1

/-- Claim C2, witness: in the concrete reachable two-block state the mined
block's hash satisfies the work predicate. -/
theorem claim_C2_witness : startsWith00 wBlock2.hash = true := by
  have h0 : Reachable wSt0 := Reachable.genesis wClkG
  have hstep : addTransaction wClkT 1 wTx wSt0 = some (wBlock2, wSt2) := by decide
  exact claim_C2 wSt2 (Reachable.submit wClkT 1 wTx wSt0 wBlock2 wSt2 h0 hstep)
    wBlock2 (by decide)

/-- Claim C9: in every reachable chain the indices are 1, 2, …, n in order
(the i-th block has index i), and sealing always assigns index equal to the
current chain length plus one. -/
theorem claim_C9 :
    (∀ st : BCState, Reachable st →
      st.chain.map Block.index = List.range' 1 st.chain.length) ∧
    (∀ (st : BCState) (clk : Nat → Nat) (fuel : Nat) (b : Block) (st' : BCState),
      mineBlock clk fuel st = some (b, st') → b.index = st.chain.length + 1) := by
  constructor
  · intro st h
    exact (reachable_inv st h).2.1
  · intro st clk fuel b st' h
    obtain ⟨hb, -, -, -⟩ := mineBlock_spec clk fuel st b st' h
    exact congrArg Block.index hb

/-- Claim C9, witness: the concrete two-block run has indices [1, 2], and its
mining step assigned index 2 = 1 + 1. -/
theorem claim_C9_witness :
    wSt2.chain.map Block.index = List.range' 1 wSt2.chain.length ∧
    wBlock2.index = wSt1.chain.length + 1 := by
  have h0 : Reachable wSt0 := Reachable.genesis wClkG
  have hstep : addTransaction wClkT 1 wTx wSt0 = some (wBlock2, wSt2) := by decide
  have hmine : mineBlock wClkT 1 wSt1 = some (wBlock2, wSt2) := by decide
  exact ⟨claim_C9.1 wSt2 (Reachable.submit wClkT 1 wTx wSt0 wBlock2 wSt2 h0 hstep),
         claim_C9.2 wSt1 wClkT 1 wBlock2 wSt2 hmine⟩

/-- Claim C10: through the public interface the pending buffer is empty in
every reachable state (each submit seals immediately and clears it), and
every block after the genesis block contains exactly one transaction. -/
theorem claim_C10 (st : BCState) (h : Reachable st) :
    st.current_transactions = [] ∧
    ∀ b ∈ st.chain.drop 1, b.transactions.length = 1 := by
  obtain ⟨hbuf, -, -, -, hrest⟩ := reachable_inv st h
  exact ⟨hbuf, fun b hb => (hrest b hb).2⟩

/-- Claim C10, witness: the concrete reachable two-block state has an empty
buffer and its non-genesis block holds exactly one transaction. -/
theorem claim_C10_witness :
    wSt2.current_transactions = [] ∧ wBlock2.transactions.length = 1 := by
  have h0 : Reachable wSt0 := Reachable.genesis wClkG
  have hstep : addTransaction wClkT 1 wTx wSt0 = some (wBlock2, wSt2) := by decide
  have hr : Reachable wSt2 := Reachable.submit wClkT 1 wTx wSt0 wBlock2 wSt2 h0 hstep
  exact ⟨(claim_C10 wSt2 hr).1, (claim_C10 wSt2 hr).2 wBlock2 (by decide)⟩

/-- Claim C7: a submit on a fresh genesis-only chain returns a block with
index 2 whose transaction list is exactly the one submitted transaction and
whose previous hash is the genesis block's hash, appends that block to the
chain, and leaves the pending buffer empty. -/
theorem claim_C7 (gclk clk : Nat → Nat) (fuel : Nat) (tx : Transaction) (b : Block)
    (st' : BCState) (h : addTransaction clk fuel tx (initFresh gclk) = some (b, st')) :
    b.index = 2 ∧ b.transactions = [tx] ∧
    b.previous_hash = (createBlock gclk ⟨[], []⟩ "1" 0).1.hash ∧
    st'.chain = (initFresh gclk).chain ++ [b] ∧
    st'.current_transactions = [] := by
  rw [addTransaction] at h
  obtain ⟨hb, -, hst, -⟩ := mineBlock_spec clk fuel _ b st' h
  refine ⟨?_, ?_, ?_, ?_, ?_⟩
  · exact congrArg Block.index hb
  · exact congrArg Block.transactions hb
  · exact congrArg Block.previous_hash hb
  · rw [hst]
  · rw [hst]

/-- Claim C7, witness: the concrete run from the fresh genesis chain under
the frozen clock seals block 2 around exactly the submitted transaction and
appends it to the chain. -/
theorem claim_C7_witness :
    wBlock2.index = 2 ∧ wBlock2.transactions = [wTx] ∧
    wBlock2.previous_hash = (createBlock wClkG ⟨[], []⟩ "1" 0).1.hash ∧
    wSt2.chain = (initFresh wClkG).chain ++ [wBlock2] ∧
    wSt2.current_transactions = [] :=
  claim_C7 wClkG wClkT 1 wTx wBlock2 wSt2 (by decide)

/-- Claim C8: a successful `mine_block` returns the first nonce, counting
from 0 upward in steps of 1, whose attempt digest (over that attempt's own
clock reading) satisfies the work predicate: the stored hash is attempt
`b.nonce`'s digest, it starts with "00", and every earlier attempt's digest
does not. -/
theorem claim_C8 (clk : Nat → Nat) (fuel : Nat) (st : BCState) (b : Block) (st' : BCState)
    (h : mineBlock clk fuel st = some (b, st')) :
    b.hash = sha256hex (serializeRecord (st.chain.length + 1) (clk b.nonce)
      st.current_transactions (previousHashOf st.chain) b.nonce) ∧
    startsWith00 b.hash = true ∧
    ∀ m, m < b.nonce →
      startsWith00 (sha256hex (serializeRecord (st.chain.length + 1) (clk m)
        st.current_transactions (previousHashOf st.chain) m)) = false := by
  obtain ⟨hb, hw, -, hfail⟩ := mineBlock_spec clk fuel st b st' h
  exact ⟨congrArg Block.hash hb, hw, hfail⟩

/-- Claim C8, witness: the concrete mining run accepts nonce 0, whose
attempt digest is the stored hash and satisfies the work predicate. -/
theorem claim_C8_witness :
    wBlock2.hash = sha256hex (serializeRecord (wSt1.chain.length + 1) (wClkT wBlock2.nonce)
      wSt1.current_transactions (previousHashOf wSt1.chain) wBlock2.nonce) ∧
    startsWith00 wBlock2.hash = true := by
  obtain ⟨h1, h2, -⟩ := claim_C8 wClkT 1 wSt1 wBlock2 wSt2 (by decide)
  exact ⟨h1, h2⟩

/-- Claim C1, code-bug exhibit: under a clock that advances by one second per
reading, a concrete submit on the fresh genesis chain seals a block whose
hash is the digest of the accepting attempt's record (stamped at the
attempt's clock reading 1700000126) and satisfies the work predicate — but
the block's stored timestamp is a later, separate clock reading
(1700000127, line 79 of `src/app.py`), so the stored hash is NOT the digest
of the record rebuilt from the block's own stored field values, contradicting
the claim and §4.2/§8 of the spec. -/
theorem claim_C1_code_bug :
    addTransaction bClk 2 wTx wSt0 = some (bBlock, ⟨[wGenesisBlock, bBlock], []⟩) ∧
    startsWith00 bBlock.hash = true ∧
    bBlock.hash = sha256hex (serializeRecord 2 (bClk 0) [wTx] wHash1 0) ∧
    bBlock.timestamp = bClk 1 ∧
    bBlock.hash ≠ sha256hex (serializeRecord bBlock.index bBlock.timestamp
      bBlock.transactions bBlock.previous_hash bBlock.nonce) := by
  exact ⟨by decide, by decide, by decide, by decide, by decide⟩
